import Mathlib

/-!
Shallow embedding of the library-management borrowing core
(RaiyanJiyon/library-management).

Entities are documents in a Mongo store; we model them as Lean structures
and the collections as lists. Mongoose sessions (transactions) are modelled
by explicit session views of the database: writes inside the `createBorrow`
handler go to the session view, which becomes durable only at
`commitTransaction`; `abortTransaction` or a thrown persistence error
discards the view.

Sources embedded:
  - src/dist/models/Book.js       (BookSchema pre-save hook, updateAvailability)
  - src/unnamed/part_006          (borrow.controller: createBorrow, getBorrows)
  - src/controllers/book.controller.ts (updateBook)
  - src/validators/borrow.schema.ts    (BorrowSchema zod validator)
-/

namespace LibraryMgmt

/-- A Book document (src/dist/models/Book.js BookSchema).
`id` is the Mongo `_id`; `genre` is a string drawn from the schema's
enum; `copies` is a JS number, integral in every code path in scope. -/
structure Book where
  id : String
  title : String
  author : String
  genre : String
  isbn : String
  description : Option String
  copies : Int
  available : Bool
deriving DecidableEq, Repr

/-- A Borrow document (src/models/Borrow.ts BorrowSchema):
a book reference by id, a quantity and a due date (timestamp). -/
structure BorrowRecord where
  book : String
  quantity : Int
  dueDate : Int
deriving DecidableEq, Repr

/-- The document store: the books and borrows collections. -/
structure DB where
  books : List Book
  borrows : List BorrowRecord
deriving DecidableEq, Repr

/-- Pre-save middleware of BookSchema (Book.js): on every document save,
`this.available = this.copies > 0` runs before the write. -/
def bookPreSave (b : Book) : Book :=
  { b with available := decide (0 < b.copies) }

/-- The body of the `updateAvailability` instance method (Book.js) before
its `this.save()` call: `if (this.copies === 0) available = false else
available = true`. -/
def updateAvailabilityAssign (b : Book) : Book :=
  if b.copies = 0 then { b with available := false }
  else { b with available := true }

/-- Saving a document: the pre-save hook rewrites `available`, then the
document is persisted as-is. -/
def saveBook (b : Book) : Book :=
  bookPreSave b

/-- The `updateAvailability` instance method as called from the borrow
controller: `await book.updateAvailability(quantity)`. The method is
declared with no parameter, so the `quantity` argument is ignored; the
method assigns `available` from `copies !== 0` and then saves (which
re-runs the pre-save hook). The returned book is the document state the
save persists. -/
def updateAvailabilityCall (b : Book) (_quantity : Int) : Book :=
  saveBook (updateAvailabilityAssign b)

/-- `Book.findById(bookId)`: first document whose `_id` matches. -/
def findById (books : List Book) (bookId : String) : Option Book :=
  books.find? (fun b => b.id = bookId)

/-- Persisting a saved document: the stored copy with the same `_id` is
replaced by the new document state. -/
def replaceBook (books : List Book) (bookId : String) (nb : Book) : List Book :=
  books.map (fun b => if b.id = bookId then nb else b)

/-- Outcome of the `createBorrow` handler (src/unnamed/part_006):
`created` is the 201 response carrying the new record, `notFound` the 404
"Book not found", `insufficient` the 400 "Requested quantity not
available", `persistenceError` the catch-all 400 for a thrown
store/transaction failure. -/
inductive BorrowOutcome where
  | created (r : BorrowRecord)
  | notFound
  | insufficient
  | persistenceError
deriving DecidableEq, Repr

/-- Persistence-failure injection points inside the transactional unit of
`createBorrow`: the store may throw at the book lookup, at the book save,
at the borrow-record insert, or at commit; `noFail` is the normal run. -/
inductive FailPoint where
  | noFail
  | atFind
  | atBookSave
  | atBorrowCreate
  | atCommit
deriving DecidableEq, Repr

/-- The `createBorrow` handler (src/unnamed/part_006 lines 8-70) with
explicit session semantics and a persistence-failure injection point.

A session is started and a transaction begun: the session view begins as
the durable database `db`. All writes (`book.save()` via
`updateAvailability`, `Borrow.create([...], { session })`) go to the
session view; only `commitTransaction` publishes it. `abortTransaction`
(taken on the 404 and 400 precondition paths) and any thrown persistence
error leave the durable state untouched. The second component of the
result is the durable database after the handler returns. -/
def createBorrowF (fp : FailPoint) (db : DB) (bookId : String)
    (quantity : Int) (dueDate : Int) : BorrowOutcome × DB :=
  -- const book = await Book.findById(bookId).session(session)
  if fp = .atFind then (.persistenceError, db)
  else
    match findById db.books bookId with
    | none =>
      -- await session.abortTransaction(); 404
      (.notFound, db)
    | some book =>
      if !book.available || book.copies < quantity then
        -- await session.abortTransaction(); 400
        (.insufficient, db)
      else
        -- book.copies -= quantity; await book.updateAvailability(quantity)
        let book2 := updateAvailabilityCall
          { book with copies := book.copies - quantity } quantity
        if fp = .atBookSave then (.persistenceError, db)
        else
          let sess1 : DB := { db with books := replaceBook db.books bookId book2 }
          -- const borrow = await Borrow.create([{ book, quantity, dueDate }], { session })
          if fp = .atBorrowCreate then (.persistenceError, db)
          else
            let record : BorrowRecord := ⟨bookId, quantity, dueDate⟩
            let sess2 : DB := { sess1 with borrows := sess1.borrows ++ [record] }
            -- await session.commitTransaction()
            if fp = .atCommit then (.persistenceError, db)
            else (.created record, sess2)

/-- The `createBorrow` handler on a normal run (no persistence failure). -/
def createBorrow (db : DB) (bookId : String) (quantity : Int)
    (dueDate : Int) : BorrowOutcome × DB :=
  createBorrowF .noFail db bookId quantity dueDate

/-!  Catalog update (src/controllers/book.controller.ts, updateBook).  -/

/-- The request body of `updateBook` after `bookSchema.parse`
(src/dist/validators/book.schema.js): title, author, genre, isbn and
copies are required, description and available optional; zod enforces
`copies >= 0` and the genre enum. -/
structure BookUpdate where
  title : String
  author : String
  genre : String
  isbn : String
  description : Option String
  copies : Int
  available : Option Bool
deriving DecidableEq, Repr

/-- One-document semantics of `Book.findByIdAndUpdate(id, parsedData)`:
each field present in `parsedData` overwrites the stored field; absent
optional fields are left as stored. `findByIdAndUpdate` is a query
update — the pre-save document middleware does not run on it. -/
def applyUpdate (b : Book) (u : BookUpdate) : Book :=
  { id := b.id
    title := u.title
    author := u.author
    genre := u.genre
    isbn := u.isbn
    description := u.description.orElse (fun _ => b.description)
    copies := u.copies
    available := u.available.getD b.available }

/-- The `updateBook` handler (book.controller.ts lines 197-229), success
and not-found paths: resolve the id, overwrite the document with the
parsed body, return the updated document. Returns the updated book (or
`none` for the 404) together with the database afterwards. -/
def updateBook (db : DB) (bookId : String) (u : BookUpdate) :
    Option Book × DB :=
  match findById db.books bookId with
  | none => (none, db)
  | some b =>
    let b2 := applyUpdate b u
    (some b2, { db with books := replaceBook db.books bookId b2 })

/-!  Borrow aggregation (src/unnamed/part_006, getBorrows).

The handler runs the pipeline
  $group { _id: "$book", totalQuantity: { $sum: "$quantity" } }
  $lookup { from: books, localField: _id, foreignField: _id, as: bookDetails }
  $unwind "$bookDetails"
  $project { _id: 0, book: { title, isbn }, totalQuantity: 1 }
We model `$group` by its semantics: one output per distinct key with the
summed quantity (Mongo leaves the group order unspecified; we use first
occurrence), `$lookup` by filtering the books collection on the key,
`$unwind` by flattening (so a group whose lookup is empty is dropped), and
`$project` by building the output record. -/

/-- The projection of a book in the `$project` stage. -/
structure BookMeta where
  title : String
  isbn : String
deriving DecidableEq, Repr

/-- One entry of the aggregation output:
`{ book: { title, isbn }, totalQuantity }`. -/
structure SummaryEntry where
  book : BookMeta
  totalQuantity : Int
deriving DecidableEq, Repr

/-- Distinct keys of the `$group` stage. Mongo leaves the group order
unspecified; this model keeps each referenced id once, in order of last
occurrence (the recursion of List.dedup). -/
def distinctKeys : List String → List String
  | [] => []
  | k :: ks =>
    if k ∈ distinctKeys ks then distinctKeys ks else k :: distinctKeys ks

/-- Sum of `quantity` over the group of records referencing `bookId`. -/
def sumQuantity (records : List BorrowRecord) (bookId : String) : Int :=
  ((records.filter (fun r => r.book = bookId)).map (fun r => r.quantity)).sum

/-- The `$group` stage: one `(bookId, totalQuantity)` per distinct
referenced book id. -/
def groupStage (records : List BorrowRecord) : List (String × Int) :=
  (distinctKeys (records.map (fun r => r.book))).map
    (fun k => (k, sumQuantity records k))

/-- The whole `getBorrows` pipeline: `$group`, then `$lookup` on the books
collection joined on `_id`, `$unwind` (dropping empty lookups), and the
final `$project`. -/
def summarize (books : List Book) (records : List BorrowRecord) :
    List SummaryEntry :=
  (groupStage records).flatMap
    (fun g => (books.filter (fun b => b.id = g.1)).map
      (fun b => ⟨⟨b.title, b.isbn⟩, g.2⟩))

/-!  Borrow input validation (src/validators/borrow.schema.ts).  -/

/-- Validity test `mongoose.Types.ObjectId.isValid` on a string: a
24-character hex string, or any 12-character string (12 raw bytes). -/
def isValidObjectId (s : String) : Bool :=
  (s.length = 24 && s.toList.all (fun c =>
    c.isDigit || ('a' ≤ c && c ≤ 'f') || ('A' ≤ c && c ≤ 'F')))
  || s.length = 12

/-- A raw borrow request body as seen by `BorrowSchema.parse`. A `none`
field stands for a missing field or one of the wrong JSON type, which zod
rejects; `quantity` is a JS number, modelled as a rational. -/
structure RawBorrow where
  book : Option String
  quantity : Option ℚ
  dueDate : Option String
deriving DecidableEq, Repr

/-- The parsed output of `BorrowSchema.parse`: the book id string, the
numeric quantity, and the due date transformed to a timestamp. -/
structure ParsedBorrow where
  bookId : String
  quantity : ℚ
  dueDate : Int
deriving DecidableEq, Repr

/-- Zod validator `BorrowSchema.parse` (borrow.schema.ts). `parseDate`
models the JS `new Date(str)` constructor (`none` when the result is an
invalid date) and `now` the timestamp of `new Date()` at validation time;
both are external collaborators passed in explicitly. The schema checks:
`book` a nonempty string passing `ObjectId.isValid`; `quantity` a number
`>= 1` (`zod.number().min(1)` — no integrality check); `dueDate` a string
parsing to a valid date strictly after `now`. `none` models the thrown
`ZodError` (mapped to the 400 ValidationError response). -/
def validateBorrowInput (parseDate : String → Option Int) (now : Int)
    (raw : RawBorrow) : Option ParsedBorrow :=
  match raw.book, raw.quantity, raw.dueDate with
  | some bk, some q, some dd =>
    if 1 ≤ bk.length && isValidObjectId bk && 1 ≤ q then
      match parseDate dd with
      | some t => if now < t then some ⟨bk, q, t⟩ else none
      | none => none
    else none
  | _, _, _ => none

/-!  Helper lemmas.  -/

lemma findById_id {books : List Book} {bookId : String} {book : Book}
    (h : findById books bookId = some book) : book.id = bookId := by
  have := List.find?_some h
  simpa using this

lemma findById_replaceBook {books : List Book} {bookId : String} {book : Book}
    (h : findById books bookId = some book) (nb : Book) (hnb : nb.id = bookId) :
    findById (replaceBook books bookId nb) bookId = some nb := by
  induction books with
  | nil => simp [findById] at h
  | cons b bs ih =>
    by_cases hb : b.id = bookId
    · simp [findById, replaceBook, hb, hnb]
    · have h' : findById bs bookId = some book := by
        simpa [findById, List.find?_cons, hb] using h
      simpa [findById, replaceBook, hb] using ih h'

/-!  Theorems about the claims.  -/

/-- C5: a borrow request whose bookId resolves to no book fails with
NotFoundError (the 404 path), no BorrowRecord is created and no book is
modified: the durable database is returned unchanged. -/
theorem createBorrow_notFound (db : DB) (bookId : String)
    (quantity dueDate : Int)
    (hfind : findById db.books bookId = none) :
    createBorrow db bookId quantity dueDate = (BorrowOutcome.notFound, db) := by
  unfold createBorrow createBorrowF
  simp [hfind]

theorem createBorrow_notFound_witness :
    findById (DB.mk [] []).books "b1" = none ∧
    createBorrow ⟨[], []⟩ "b1" 1 5 = (BorrowOutcome.notFound, ⟨[], []⟩) :=
  ⟨by decide, createBorrow_notFound ⟨[], []⟩ "b1" 1 5 (by decide)⟩

/-- C4: a borrow request with quantity exceeding the stock, or against a
book whose available flag is false, fails with InsufficientInventoryError
(the 400 "Requested quantity not available" path), and the durable
database — copies and borrow records — is unchanged. -/
theorem createBorrow_insufficient (db : DB) (bookId : String)
    (quantity dueDate : Int) (book : Book)
    (hfind : findById db.books bookId = some book)
    (h : book.available = false ∨ book.copies < quantity) :
    createBorrow db bookId quantity dueDate = (BorrowOutcome.insufficient, db) := by
  unfold createBorrow createBorrowF
  have hg : (!book.available || decide (book.copies < quantity)) = true := by
    rcases h with h | h
    · simp [h]
    · simp [h]
  simp [hfind, hg]

theorem createBorrow_insufficient_witness :
    findById (DB.mk [⟨"b1", "T", "A", "FICTION", "i1", none, 2, true⟩] []).books "b1" =
      some ⟨"b1", "T", "A", "FICTION", "i1", none, 2, true⟩ ∧
    createBorrow ⟨[⟨"b1", "T", "A", "FICTION", "i1", none, 2, true⟩], []⟩ "b1" 3 5 =
      (BorrowOutcome.insufficient, ⟨[⟨"b1", "T", "A", "FICTION", "i1", none, 2, true⟩], []⟩) :=
  ⟨by decide,
   createBorrow_insufficient ⟨[⟨"b1", "T", "A", "FICTION", "i1", none, 2, true⟩], []⟩
     "b1" 3 5 ⟨"b1", "T", "A", "FICTION", "i1", none, 2, true⟩ (by decide)
     (Or.inr (by decide))⟩

/-- C10: the updateAvailability instance method ignores the quantity
argument the borrow controller passes it (the method declares no
parameter), and its own assignment sets available to `copies != 0`
before saving; on a book with negative copies that assignment yields
true, while the spec-derived value `copies > 0` is false. -/
theorem updateAvailability_ignores_arg (b : Book) (q q' : Int) :
    updateAvailabilityCall b q = updateAvailabilityCall b q' ∧
    (updateAvailabilityAssign b).available = decide (¬ b.copies = 0) ∧
    (b.copies < 0 →
      (updateAvailabilityAssign b).available = true ∧
      decide (0 < b.copies) = false) := by
  refine ⟨rfl, ?_, ?_⟩
  · unfold updateAvailabilityAssign
    by_cases h : b.copies = 0 <;> simp [h]
  · intro h
    unfold updateAvailabilityAssign
    have h0 : ¬ b.copies = 0 := by omega
    constructor
    · simp [h0]
    · simp
      omega

theorem updateAvailability_ignores_arg_witness :
    (updateAvailabilityAssign ⟨"b1", "T", "A", "FICTION", "i1", none, -1, true⟩).available = true ∧
    decide (0 < (Book.mk "b1" "T" "A" "FICTION" "i1" none (-1) true).copies) = false :=
  (updateAvailability_ignores_arg ⟨"b1", "T", "A", "FICTION", "i1", none, -1, true⟩ 0 7).2.2
    (by decide)

/-- C2 (violation): a catalog update accepted by the zod book schema that
sets copies to 0 without supplying available goes through
findByIdAndUpdate, which does not run the pre-save availability hook; the
persisted book then has available = true with copies = 0, breaking the
invariant `available == (copies > 0)`. -/
theorem updateBook_availability_invariant_violation :
    (updateBook ⟨[⟨"b1", "T", "A", "FICTION", "i1", none, 5, true⟩], []⟩ "b1"
        ⟨"T", "A", "FICTION", "i1", none, 0, none⟩).2.books =
      [⟨"b1", "T", "A", "FICTION", "i1", none, 0, true⟩] ∧
    ¬ ((Book.mk "b1" "T" "A" "FICTION" "i1" none 0 true).available =
        decide (0 < (Book.mk "b1" "T" "A" "FICTION" "i1" none 0 true).copies)) := by
  constructor
  · rfl
  · decide

/-- C3: the borrow handler is atomic. Whatever persistence-failure point
is injected into the transactional unit, if the outcome is not a created
record then the durable database is exactly the initial one (the book
write buffered in the session view is discarded); and if a record was
created, the commit published both writes: the record appended to the
borrow collection and the decremented, re-saved book. -/
theorem createBorrow_atomic_unit (fp : FailPoint) (db : DB) (bookId : String)
    (quantity dueDate : Int) :
    ((∀ r, (createBorrowF fp db bookId quantity dueDate).1 ≠ BorrowOutcome.created r) →
      (createBorrowF fp db bookId quantity dueDate).2 = db) ∧
    (∀ r, (createBorrowF fp db bookId quantity dueDate).1 = BorrowOutcome.created r →
      (createBorrowF fp db bookId quantity dueDate).2.borrows = db.borrows ++ [r] ∧
      ∃ book, findById db.books bookId = some book ∧
        (createBorrowF fp db bookId quantity dueDate).2.books =
          replaceBook db.books bookId
            (updateAvailabilityCall { book with copies := book.copies - quantity }
              quantity)) := by
  unfold createBorrowF
  by_cases h1 : fp = FailPoint.atFind
  · simp [h1]
  · cases hfb : findById db.books bookId with
    | none => simp [h1, hfb]
    | some book =>
      by_cases hg : (!book.available || decide (book.copies < quantity)) = true
      · simp [h1, hfb, hg]
      · by_cases h2 : fp = FailPoint.atBookSave
        · simp [h1, hfb, hg, h2]
        · by_cases h3 : fp = FailPoint.atBorrowCreate
          · simp [h1, hfb, hg, h2, h3]
          · by_cases h4 : fp = FailPoint.atCommit
            · simp [h1, hfb, hg, h2, h3, h4]
            · simp only [h1, hfb, hg, h2, h3, h4, if_false, Bool.false_eq_true]
              constructor
              · intro hnc
                exact absurd rfl (hnc ⟨bookId, quantity, dueDate⟩)
              · intro r hr
                simp only [BorrowOutcome.created.injEq] at hr
                subst hr
                exact ⟨rfl, book, rfl, rfl⟩

theorem createBorrow_atomic_unit_witness :
    (createBorrowF FailPoint.atCommit
        ⟨[⟨"b1", "T", "A", "FICTION", "i1", none, 2, true⟩], []⟩ "b1" 1 5).1 =
      BorrowOutcome.persistenceError ∧
    (createBorrowF FailPoint.atCommit
        ⟨[⟨"b1", "T", "A", "FICTION", "i1", none, 2, true⟩], []⟩ "b1" 1 5).2 =
      ⟨[⟨"b1", "T", "A", "FICTION", "i1", none, 2, true⟩], []⟩ := by
  have hX : (createBorrowF FailPoint.atCommit
      ⟨[⟨"b1", "T", "A", "FICTION", "i1", none, 2, true⟩], []⟩ "b1" 1 5).1 =
      BorrowOutcome.persistenceError := by decide
  refine ⟨hX, ?_⟩
  exact (createBorrow_atomic_unit FailPoint.atCommit
      ⟨[⟨"b1", "T", "A", "FICTION", "i1", none, 2, true⟩], []⟩ "b1" 1 5).1
    (fun r h => by rw [hX] at h; exact BorrowOutcome.noConfusion h)

/-- C1: a borrow of quantity q with 1 ≤ q ≤ copies against an available
book succeeds: the handler returns 201 with the created record
(bookId, q, dueDate), the committed borrow collection is the old one with
exactly that record appended, and the committed book has copies decreased
by q with availability recomputed by the pre-save hook to copies > 0. -/
theorem createBorrow_success (db : DB) (bookId : String)
    (quantity dueDate : Int) (book : Book)
    (hfind : findById db.books bookId = some book)
    (havail : book.available = true)
    (_hq1 : 1 ≤ quantity) (hqc : quantity ≤ book.copies) :
    (createBorrow db bookId quantity dueDate).1 =
      BorrowOutcome.created ⟨bookId, quantity, dueDate⟩ ∧
    (createBorrow db bookId quantity dueDate).2.borrows =
      db.borrows ++ [⟨bookId, quantity, dueDate⟩] ∧
    findById (createBorrow db bookId quantity dueDate).2.books bookId =
      some { book with copies := book.copies - quantity,
                       available := decide (0 < book.copies - quantity) } := by
  have hg : (!book.available || decide (book.copies < quantity)) = false := by
    rw [havail]
    simp
    omega
  have hbook2 : updateAvailabilityCall
      { book with copies := book.copies - quantity } quantity =
      { book with copies := book.copies - quantity,
                  available := decide (0 < book.copies - quantity) } := by
    unfold updateAvailabilityCall saveBook bookPreSave updateAvailabilityAssign
    by_cases h0 : book.copies - quantity = 0 <;> simp [h0]
  have hrun : createBorrow db bookId quantity dueDate =
      (BorrowOutcome.created ⟨bookId, quantity, dueDate⟩,
       ⟨replaceBook db.books bookId
          (updateAvailabilityCall { book with copies := book.copies - quantity }
            quantity),
        db.borrows ++ [⟨bookId, quantity, dueDate⟩]⟩) := by
    unfold createBorrow createBorrowF
    simp [hfind, hg]
  have hid : book.id = bookId := findById_id hfind
  refine ⟨by rw [hrun], by rw [hrun], ?_⟩
  rw [hrun, hbook2]
  apply findById_replaceBook hfind
  exact hid

theorem createBorrow_success_witness :
    (createBorrow ⟨[⟨"b1", "T", "A", "FICTION", "i1", none, 3, true⟩], []⟩ "b1" 2 9).1 =
      BorrowOutcome.created ⟨"b1", 2, 9⟩ ∧
    (createBorrow ⟨[⟨"b1", "T", "A", "FICTION", "i1", none, 3, true⟩], []⟩ "b1" 2 9).2.borrows =
      [] ++ [⟨"b1", 2, 9⟩] ∧
    findById (createBorrow ⟨[⟨"b1", "T", "A", "FICTION", "i1", none, 3, true⟩], []⟩
        "b1" 2 9).2.books "b1" =
      some ⟨"b1", "T", "A", "FICTION", "i1", none, 1, decide ((0 : Int) < 3 - 2)⟩ :=
  createBorrow_success ⟨[⟨"b1", "T", "A", "FICTION", "i1", none, 3, true⟩], []⟩
    "b1" 2 9 ⟨"b1", "T", "A", "FICTION", "i1", none, 3, true⟩
    (by decide) rfl (by decide) (by decide)

lemma mem_distinctKeys (l : List String) (x : String) :
    x ∈ distinctKeys l ↔ x ∈ l := by
  induction l with
  | nil => simp [distinctKeys]
  | cons k ks ih =>
    rw [distinctKeys]
    by_cases hm : k ∈ distinctKeys ks
    · rw [if_pos hm]
      constructor
      · intro hx
        exact List.mem_cons_of_mem _ (ih.mp hx)
      · intro hx
        rcases List.mem_cons.mp hx with he | hx'
        · subst he
          exact hm
        · exact ih.mpr hx'
    · rw [if_neg hm]
      simp [List.mem_cons, ih]

lemma nodup_distinctKeys (l : List String) : (distinctKeys l).Nodup := by
  induction l with
  | nil => simp [distinctKeys]
  | cons k ks ih =>
    rw [distinctKeys]
    by_cases hm : k ∈ distinctKeys ks
    · rw [if_pos hm]
      exact ih
    · rw [if_neg hm]
      exact List.nodup_cons.mpr ⟨hm, ih⟩

lemma filter_id_of_mem {books : List Book}
    (hids : (books.map (fun b => b.id)).Nodup) {b : Book} (hb : b ∈ books) :
    books.filter (fun x => x.id = b.id) = [b] := by
  induction books with
  | nil => cases hb
  | cons c cs ih =>
    simp only [List.map_cons, List.nodup_cons, List.mem_map] at hids
    rcases List.mem_cons.mp hb with hcb | hcs
    · subst hcb
      have hnil : cs.filter (fun x => x.id = b.id) = [] := by
        apply List.filter_eq_nil_iff.mpr
        intro x hx
        simp only [decide_eq_true_eq]
        intro hxe
        exact hids.1 ⟨x, hx, hxe⟩
      simp [List.filter_cons, hnil]
    · have hne : ¬ c.id = b.id := by
        intro he
        exact hids.1 ⟨b, hcs, he.symm⟩
      have := ih hids.2 hcs
      simp [List.filter_cons, hne, this]

lemma length_filter_id (books : List Book)
    (hids : (books.map (fun b => b.id)).Nodup) (k : String) :
    (books.filter (fun b => b.id = k)).length =
      if books.any (fun b => b.id = k) = true then 1 else 0 := by
  by_cases h : books.any (fun b => b.id = k) = true
  · rw [if_pos h]
    obtain ⟨b, hb, hbk⟩ := List.any_eq_true.mp h
    have hbk' : b.id = k := by simpa using hbk
    subst hbk'
    rw [filter_id_of_mem hids hb]
    rfl
  · rw [if_neg h]
    have hnil : books.filter (fun b => b.id = k) = [] := by
      apply List.filter_eq_nil_iff.mpr
      intro x hx
      simp only [decide_eq_true_eq]
      intro hxe
      exact h (List.any_eq_true.mpr ⟨x, hx, by simp [hxe]⟩)
    rw [hnil]
    rfl

lemma summarize_length_aux (books : List Book)
    (hids : (books.map (fun b => b.id)).Nodup)
    (records : List BorrowRecord) (keys : List String) :
    ((keys.map (fun k => (k, sumQuantity records k))).flatMap
      (fun g => (books.filter (fun b => b.id = g.1)).map
        (fun b => (⟨⟨b.title, b.isbn⟩, g.2⟩ : SummaryEntry)))).length =
      (keys.filter (fun k => books.any (fun b => b.id = k))).length := by
  induction keys with
  | nil => rfl
  | cons k ks ih =>
    simp only [List.map_cons, List.flatMap_cons, List.length_append, ih,
      List.filter_cons, List.length_map]
    rw [length_filter_id books hids k]
    by_cases h : books.any (fun b => b.id = k) = true
    · simp [h, Nat.add_comm]
    · simp [h]

lemma isbn_inj {books : List Book}
    (hisbn : (books.map (fun b => b.isbn)).Nodup) {b b' : Book}
    (hb : b ∈ books) (hb' : b' ∈ books) (h : b.isbn = b'.isbn) : b = b' :=
  List.inj_on_of_nodup_map hisbn hb hb' h

lemma summarize_count_aux (books : List Book) (records : List BorrowRecord)
    (hids : (books.map (fun b => b.id)).Nodup)
    (hisbn : (books.map (fun b => b.isbn)).Nodup)
    (b : Book) (hb : b ∈ books) (keys : List String) (hkeys : keys.Nodup) :
    ((keys.map (fun k => (k, sumQuantity records k))).flatMap
      (fun g => (books.filter (fun x => x.id = g.1)).map
        (fun x => (⟨⟨x.title, x.isbn⟩, g.2⟩ : SummaryEntry)))).count
      ⟨⟨b.title, b.isbn⟩, sumQuantity records b.id⟩ =
      if b.id ∈ keys then 1 else 0 := by
  induction keys with
  | nil => rfl
  | cons k ks ih =>
    have hkd := List.nodup_cons.mp hkeys
    simp only [List.map_cons, List.flatMap_cons, List.count_append,
      ih hkd.2]
    by_cases hk : k = b.id
    · subst hk
      rw [filter_id_of_mem hids hb]
      have hnotin : b.id ∉ ks := hkd.1
      rw [if_neg hnotin, if_pos (List.mem_cons_self _ _)]
      simp [List.count_cons]
    · have hzero : (((books.filter (fun x => x.id = k)).map
          (fun x => (⟨⟨x.title, x.isbn⟩, sumQuantity records k⟩ : SummaryEntry))).count
          (⟨⟨b.title, b.isbn⟩, sumQuantity records b.id⟩ : SummaryEntry)) = 0 := by
        rw [List.count_eq_zero]
        intro hmem
        obtain ⟨x, hx, hxe⟩ := List.mem_map.mp hmem
        have hxb : x ∈ books := (List.mem_filter.mp hx).1
        have hxid : x.id = k := by
          have := (List.mem_filter.mp hx).2
          simpa using this
        have hxisbn : x.isbn = b.isbn := by
          have := congrArg (fun e => e.book.isbn) hxe
          simpa using this
        have hxb' : x = b := isbn_inj hisbn hxb hb hxisbn
        subst hxb'
        exact hk hxid.symm
      have hiff : (b.id ∈ k :: ks) ↔ (b.id ∈ ks) := by
        constructor
        · intro hm
          rcases List.mem_cons.mp hm with he | hm'
          · exact absurd he.symm hk
          · exact hm'
        · exact List.mem_cons_of_mem _
      rw [hzero]
      simp only [Nat.zero_add]
      exact if_congr hiff.symm rfl rfl

lemma distinctKeys_filter (p : String → Bool) (l : List String) :
    distinctKeys (l.filter p) = (distinctKeys l).filter p := by
  induction l with
  | nil => rfl
  | cons k ks ih =>
    by_cases hp : p k = true
    · rw [List.filter_cons_of_pos hp]
      rw [distinctKeys, distinctKeys, ih]
      by_cases hm : k ∈ distinctKeys ks
      · have hmf : k ∈ (distinctKeys ks).filter p := List.mem_filter.mpr ⟨hm, hp⟩
        rw [if_pos hmf, if_pos hm]
      · have hmf : k ∉ (distinctKeys ks).filter p :=
          fun hmem => hm (List.mem_filter.mp hmem).1
        rw [if_neg hmf, if_neg hm, List.filter_cons_of_pos hp]
    · rw [List.filter_cons_of_neg hp]
      rw [distinctKeys, ih]
      by_cases hm : k ∈ distinctKeys ks
      · rw [if_pos hm]
      · rw [if_neg hm, List.filter_cons_of_neg hp]

lemma map_book_filter (records : List BorrowRecord) (bid : String) :
    (records.filter (fun r => ¬ r.book = bid)).map (fun r => r.book) =
      (records.map (fun r => r.book)).filter (fun x => ¬ x = bid) := by
  induction records with
  | nil => rfl
  | cons r rs ih =>
    by_cases h : r.book = bid
    · have hc : (decide ¬ (r.book = bid)) = false := by simp [h]
      simp only [List.map_cons, List.filter_cons, hc, Bool.false_eq_true,
        if_false, ih]
    · have hc : (decide ¬ (r.book = bid)) = true := by simp [h]
      simp only [List.map_cons, List.filter_cons, hc, if_true, ih]

lemma sumQuantity_filter (records : List BorrowRecord) (bid k : String)
    (h : ¬ k = bid) :
    sumQuantity (records.filter (fun r => ¬ r.book = bid)) k =
      sumQuantity records k := by
  unfold sumQuantity
  rw [List.filter_filter]
  congr 1
  congr 1
  apply List.filter_congr
  intro r hr
  by_cases hk : r.book = k
  · simp [hk, h]
  · simp [hk]

/-- C6: the getBorrows aggregation groups correctly. Under the schema
uniqueness of book ids and isbns, the pipeline output has one entry per
distinct referenced book id whose book resolves (the length equation),
and for every book b referenced by some record, the entry carrying
b.title and b.isbn together with the sum of the quantities of all records
referencing b occurs exactly once in the output. -/
theorem summarize_per_book_totals (books : List Book)
    (records : List BorrowRecord)
    (hids : (books.map (fun b => b.id)).Nodup)
    (hisbn : (books.map (fun b => b.isbn)).Nodup) :
    (summarize books records).length =
      ((distinctKeys (records.map (fun r => r.book))).filter
        (fun k => books.any (fun b => b.id = k))).length ∧
    ∀ bid b, b ∈ books → b.id = bid → bid ∈ records.map (fun r => r.book) →
      (summarize books records).count
        ⟨⟨b.title, b.isbn⟩, sumQuantity records bid⟩ = 1 := by
  constructor
  · exact summarize_length_aux books hids records _
  · intro bid b hb hbid hmem
    subst hbid
    have hkeys := nodup_distinctKeys (records.map (fun r => r.book))
    have hin : b.id ∈ distinctKeys (records.map (fun r => r.book)) :=
      (mem_distinctKeys _ _).mpr hmem
    have hcount := summarize_count_aux books records hids hisbn b hb _ hkeys
    rw [if_pos hin] at hcount
    exact hcount

theorem summarize_per_book_totals_witness :
    (summarize
        [⟨"a1", "Book A", "Au", "FICTION", "ia", none, 10, true⟩,
         ⟨"b1", "Book B", "Au", "FICTION", "ib", none, 10, true⟩]
        [⟨"a1", 2, 9⟩, ⟨"a1", 3, 9⟩, ⟨"b1", 5, 9⟩]).count
      ⟨⟨"Book A", "ia"⟩, 5⟩ = 1 ∧
    summarize
        [⟨"a1", "Book A", "Au", "FICTION", "ia", none, 10, true⟩,
         ⟨"b1", "Book B", "Au", "FICTION", "ib", none, 10, true⟩]
        [⟨"a1", 2, 9⟩, ⟨"a1", 3, 9⟩, ⟨"b1", 5, 9⟩] =
      [⟨⟨"Book A", "ia"⟩, 5⟩, ⟨⟨"Book B", "ib"⟩, 5⟩] := by
  constructor
  · exact (summarize_per_book_totals
      [⟨"a1", "Book A", "Au", "FICTION", "ia", none, 10, true⟩,
       ⟨"b1", "Book B", "Au", "FICTION", "ib", none, 10, true⟩]
      [⟨"a1", 2, 9⟩, ⟨"a1", 3, 9⟩, ⟨"b1", 5, 9⟩]
      (by decide) (by decide)).2
      "a1" ⟨"a1", "Book A", "Au", "FICTION", "ia", none, 10, true⟩
      (by decide) rfl (by decide)
  · decide

/-- C7: a borrow record whose book id resolves to no stored book
contributes nothing to the aggregation — its group is dropped by the
unwind of an empty lookup — so the pipeline output is the same as if all
records referencing the dangling id were absent; in particular the
aggregation completes (it is a total function) with no entry for that
id. -/
theorem summarize_drops_dangling (books : List Book)
    (records : List BorrowRecord) (bid : String)
    (h : ∀ b ∈ books, ¬ b.id = bid) :
    summarize books records =
      summarize books (records.filter (fun r => ¬ r.book = bid)) := by
  unfold summarize groupStage
  rw [map_book_filter, distinctKeys_filter]
  generalize distinctKeys (records.map fun r => r.book) = keys
  induction keys with
  | nil => rfl
  | cons k ks ih =>
    simp only [List.filter_cons]
    by_cases hk : k = bid
    · have hcond : (decide ¬ (k = bid)) = false := by simp [hk]
      rw [hcond]
      simp only [Bool.false_eq_true, if_false, List.map_cons, List.flatMap_cons]
      have hnil : books.filter (fun b => b.id = k) = [] := by
        apply List.filter_eq_nil_iff.mpr
        intro b hb
        have hbn := h b hb
        rw [hk]
        simpa using hbn
      rw [hnil]
      simpa using ih
    · have hcond : (decide ¬ (k = bid)) = true := by simp [hk]
      rw [hcond]
      simp only [if_true, List.map_cons, List.flatMap_cons]
      rw [sumQuantity_filter records bid k hk, ih]

theorem summarize_drops_dangling_witness :
    summarize [⟨"a1", "Book A", "Au", "FICTION", "ia", none, 10, true⟩]
        [⟨"a1", 2, 9⟩, ⟨"zz", 7, 9⟩] =
      summarize [⟨"a1", "Book A", "Au", "FICTION", "ia", none, 10, true⟩]
        ([(⟨"a1", 2, 9⟩ : BorrowRecord), ⟨"zz", 7, 9⟩].filter
          (fun r => ¬ r.book = "zz")) ∧
    summarize [⟨"a1", "Book A", "Au", "FICTION", "ia", none, 10, true⟩]
        [⟨"a1", 2, 9⟩, ⟨"zz", 7, 9⟩] = [⟨⟨"Book A", "ia"⟩, 2⟩] := by
  constructor
  · exact summarize_drops_dangling
      [⟨"a1", "Book A", "Au", "FICTION", "ia", none, 10, true⟩]
      [⟨"a1", 2, 9⟩, ⟨"zz", 7, 9⟩] "zz" (by decide)
  · decide

/-- C9 (violation): the zod borrow validator checks the quantity with
number().min(1) and never requires integrality, so the raw input with
quantity 3/2 — a syntactically valid 12-byte book id and a future-parsing
due date — is accepted and produces a parsed quantity that is not an
integer, contradicting the claim that only integer quantities pass. -/
theorem validateBorrowInput_accepts_nonintegral :
    validateBorrowInput (fun _ => some 10) 0
      ⟨some "0123456789ab", some (mkRat 3 2), some "2099-01-01"⟩ =
      some ⟨"0123456789ab", mkRat 3 2, 10⟩ ∧
    ¬ ∃ n : ℤ, mkRat 3 2 = (n : ℚ) := by
  constructor
  · decide
  · rintro ⟨n, hn⟩
    have hd : (mkRat 3 2).den = 1 := by rw [hn]; exact Rat.den_intCast n
    exact absurd hd (by decide)

/-- C9 (amended): characterization of the zod borrow validator. An input
is accepted and produces a parsed record exactly when the book field is a
nonempty string passing the ObjectId syntax test, the quantity is a
number greater than or equal to 1 (integrality is not required), and the
due-date string parses to a timestamp strictly after the validation-time
clock; every other input is rejected (a ZodError, surfaced as the 400
ValidationError response). -/
theorem validateBorrowInput_characterization
    (parseDate : String → Option Int) (now : Int) (raw : RawBorrow)
    (p : ParsedBorrow) :
    validateBorrowInput parseDate now raw = some p ↔
      ∃ bk q dd t, raw.book = some bk ∧ raw.quantity = some q ∧
        raw.dueDate = some dd ∧ 1 ≤ bk.length ∧ isValidObjectId bk = true ∧
        1 ≤ q ∧ parseDate dd = some t ∧ now < t ∧ p = ⟨bk, q, t⟩ := by
  obtain ⟨ob, oq, od⟩ := raw
  unfold validateBorrowInput
  cases ob with
  | none => simp
  | some bk =>
  cases oq with
  | none => simp
  | some q =>
  cases od with
  | none => simp
  | some dd =>
  simp only [Option.some.injEq]
  by_cases hc : (1 ≤ bk.length && isValidObjectId bk && 1 ≤ q) = true
  · have hsplit : (1 ≤ bk.length ∧ isValidObjectId bk = true) ∧ (1 : ℚ) ≤ q := by
      simpa [Bool.and_eq_true, decide_eq_true_eq] using hc
    rw [if_pos hc]
    cases hpd : parseDate dd with
    | none =>
      constructor
      · intro hp
        exact Option.noConfusion hp
      · rintro ⟨bk', q', dd', t', hb, hq, hd, -, -, -, hpd', -, -⟩
        cases hb; cases hq; cases hd
        rw [hpd] at hpd'
        exact Option.noConfusion hpd'
    | some t =>
      dsimp only
      by_cases ht : now < t
      · rw [if_pos ht]
        simp only [Option.some.injEq]
        constructor
        · intro hp
          exact ⟨bk, q, dd, t, rfl, rfl, rfl, hsplit.1.1, hsplit.1.2, hsplit.2,
            hpd, ht, hp.symm⟩
        · rintro ⟨bk', q', dd', t', hb, hq, hd, -, -, -, hpd', -, hp⟩
          cases hb; cases hq; cases hd
          rw [hpd] at hpd'
          cases hpd'
          exact hp.symm
      · rw [if_neg ht]
        constructor
        · intro hp
          exact Option.noConfusion hp
        · rintro ⟨bk', q', dd', t', hb, hq, hd, -, -, -, hpd', hnt, -⟩
          cases hb; cases hq; cases hd
          rw [hpd] at hpd'
          cases hpd'
          exact absurd hnt ht
  · rw [if_neg hc]
    constructor
    · intro hp
      exact Option.noConfusion hp
    · rintro ⟨bk', q', dd', t', hb, hq, hd, hlen, hvalid, hq1, -, -, -⟩
      cases hb; cases hq; cases hd
      refine absurd ?_ hc
      simp only [Bool.and_eq_true, decide_eq_true_eq]
      exact ⟨⟨hlen, hvalid⟩, hq1⟩

end LibraryMgmt
